import Mathlib

/-!
Verification development for the cockroach repository: a shallow embedding of
security/tls.go together with the key-value protocol layer declared by the
proto definitions in the same source file, and theorems checking the
specification's claims against it.
-/

namespace Cockroach

/-! ## Byte strings -/

/-- Go byte slices, as lists of bytes. -/
abbrev Bytes := List Nat

/-! ## Embedding of the Go standard library types used by security/tls.go -/

/-- The ClientAuthType constants of crypto/tls. -/
inductive ClientAuthType where
  | noClientCert
  | requestClientCert
  | requireAnyClientCert
  | verifyClientCertIfGiven
  | requireAndVerifyClientCert
  deriving DecidableEq, Repr

/-- A crypto/x509 CertPool, as the list of certificates added to it. -/
abbrev CertPool := List Bytes

/-- A crypto/tls Certificate (a parsed key pair), identified by the PEM
inputs it was parsed from. -/
structure Certificate where
  certPEM : Bytes
  keyPEM : Bytes
  deriving DecidableEq, Repr

/-- The crypto/tls VersionTLS11 constant. -/
def VersionTLS11 : Nat := 0x0302

/-- The crypto/tls VersionTLS12 constant. -/
def VersionTLS12 : Nat := 0x0303

/-- A crypto/tls Config, restricted to the fields security/tls.go sets.
Fields left at their Go zero value by tls.go keep Go's zero value here. -/
structure TlsStdConfig where
  certificates : List Certificate := []
  clientAuth : ClientAuthType := .noClientCert
  rootCAs : Option CertPool := none
  clientCAs : Option CertPool := none
  preferServerCipherSuites : Bool := false
  minVersion : Nat := 0
  insecureSkipVerify : Bool := false
  deriving DecidableEq, Repr

/-- The ambient behaviour of the Go standard library calls tls.go makes:
x509KeyPair is tls.X509KeyPair, and pemCerts gives the certificates that
x509.CertPool.AppendCertsFromPEM would add to an empty pool from the given
PEM data, none when no certificate parses (the case in which
AppendCertsFromPEM reports failure). -/
structure StdLib where
  x509KeyPair : Bytes → Bytes → Except String Certificate
  pemCerts : Bytes → Option (List Bytes)

/-! ## Embedding of security/tls.go -/

/-- The EmbeddedPrefix constant of tls.go: the marker on a -certs argument
that indicates embedded certs. -/
def embeddedMarker : String := "embedded="

/-- The legacy stripping both FromDir loaders perform on a cert directory
argument carrying the embedded-certs marker. -/
def stripEmbedded (certDir : String) : String :=
  if embeddedMarker.isPrefixOf certDir then certDir.drop embeddedMarker.length
  else certDir

/-- Go path.Join for the two-component, already-clean paths tls.go builds. -/
def pathJoin (dir name : String) : String := dir ++ "/" ++ name

/-- LoadTLSConfig from tls.go: parses the node key pair, builds the CA cert
pool, and returns the server TLS configuration; returns an error (and no
configuration) when the key pair does not parse or the CA PEM data cannot
be added to the pool. The Go return of a nil pointer paired with a non-nil
error is the Except.error case. -/
def LoadTLSConfig (lib : StdLib) (certPEM keyPEM caPEM : Bytes) :
    Except String TlsStdConfig :=
  match lib.x509KeyPair certPEM keyPEM with
  | .error e => .error e
  | .ok cert =>
    match lib.pemCerts caPEM with
    | none => .error "failed to parse PEM data to pool"
    | some certPool =>
      .ok { certificates := [cert]
            clientAuth := .verifyClientCertIfGiven
            rootCAs := some certPool
            clientCAs := some certPool
            preferServerCipherSuites := true
            minVersion := VersionTLS11 }

/-- LoadClientTLSConfig from tls.go: builds the client TLS configuration
from the CA certificate PEM data, or fails when the PEM data cannot be
added to the pool. -/
def LoadClientTLSConfig (lib : StdLib) (caPEM : Bytes) :
    Except String TlsStdConfig :=
  match lib.pemCerts caPEM with
  | none => .error "failed to parse PEM data to pool"
  | some certPool =>
    .ok { rootCAs := some certPool
          insecureSkipVerify := true
          minVersion := VersionTLS12 }

/-- LoadTLSConfigFromDir from tls.go: reads node.crt, node.key and ca.crt
from the directory (after stripping the embedded marker) through the
injected file reader, propagating the first read error, then defers to
LoadTLSConfig. -/
def LoadTLSConfigFromDir (lib : StdLib)
    (readFile : String → Except String Bytes) (certDir : String) :
    Except String TlsStdConfig :=
  let dir := stripEmbedded certDir
  match readFile (pathJoin dir "node.crt") with
  | .error e => .error e
  | .ok certPEM =>
    match readFile (pathJoin dir "node.key") with
    | .error e => .error e
    | .ok keyPEM =>
      match readFile (pathJoin dir "ca.crt") with
      | .error e => .error e
      | .ok caPEM => LoadTLSConfig lib certPEM keyPEM caPEM

/-- LoadClientTLSConfigFromDir from tls.go: reads ca.crt from the directory
(after stripping the embedded marker), propagating a read error, then
defers to LoadClientTLSConfig. -/
def LoadClientTLSConfigFromDir (lib : StdLib)
    (readFile : String → Except String Bytes) (certDir : String) :
    Except String TlsStdConfig :=
  let dir := stripEmbedded certDir
  match readFile (pathJoin dir "ca.crt") with
  | .error e => .error e
  | .ok caPEM => LoadClientTLSConfig lib caPEM

/-- LoadInsecureTLSConfig from tls.go: a TLSConfig whose stored
configuration is nil, i.e. TLS disabled. The wrapper holds an optional
pointer, so here the stored pointer is none (see Heap and TLSConfig below). -/
def LoadInsecureTLSConfigPtr : Option Nat := none

/-! ### A heap of tls.Config values, for the pointer-copy behaviour of
TLSConfig.Config -/

/-- A heap of Go tls.Config allocations: the next fresh address and the
allocated cells. -/
structure Heap where
  next : Nat
  cells : List (Nat × TlsStdConfig)
  deriving DecidableEq, Repr

/-- Dereference an address. -/
def Heap.read (h : Heap) (a : Nat) : Option TlsStdConfig :=
  h.cells.lookup a

/-- Allocate a fresh cell holding v, returning its address. -/
def Heap.alloc (h : Heap) (v : TlsStdConfig) : Nat × Heap :=
  (h.next, { next := h.next + 1, cells := (h.next, v) :: h.cells })

/-- Overwrite the cell at address a. -/
def Heap.write (h : Heap) (a : Nat) (v : TlsStdConfig) : Heap :=
  { h with cells := h.cells.map (fun c => if c.1 = a then (a, v) else c) }

/-- Every allocated address is below the next fresh address. -/
def Heap.wf (h : Heap) : Prop :=
  ∀ c ∈ h.cells, c.1 < h.next

instance (h : Heap) : Decidable h.wf := by
  unfold Heap.wf; infer_instance

/-- security.TLSConfig: a mutex plus a possibly-nil pointer to a
tls.Config. The mutex serializes Config against writers; the embedding
keeps the lock-protected body as one atomic step on the heap. -/
structure TLSConfig where
  config : Option Nat
  deriving DecidableEq, Repr

/-- TLSConfig.Config from tls.go: under the lock, return nil when the
stored configuration is nil, and otherwise allocate a fresh copy of the
stored configuration and return a pointer to the copy. -/
def TLSConfig.Config (c : TLSConfig) (h : Heap) : Option Nat × Heap :=
  match c.config with
  | none => (none, h)
  | some a =>
    match h.read a with
    | none => (none, h)
    | some v =>
      let p := h.alloc v
      (some p.1, p.2)

/-! ## The key-value protocol layer

The proto declarations in the source file document the operation
contracts; the executing code itself is not part of this repository
snapshot, so the execution semantics below are modelled from the spec. -/

/-- Modelled from the spec: keys are byte strings; the key ordering used by
ranges, scans and delete-range is lexicographic on bytes. -/
abbrev Key := List Nat

/-- Strict lexicographic order on keys, a shorter key sorting before its
extensions. -/
def keyLt : Key → Key → Bool
  | [], [] => false
  | [], _ :: _ => true
  | _ :: _, [] => false
  | a :: as, b :: bs => decide (a < b) || (decide (a = b) && keyLt as bs)

/-- Reflexive closure of the key order. -/
def keyLe (a b : Key) : Bool := decide (a = b) || keyLt a b

/-- The strict key order as a proposition. -/
def KeyLtP (a b : Key) : Prop := keyLt a b = true

instance : DecidableRel KeyLtP := by
  unfold KeyLtP; infer_instance

/-- A Value as declared in the proto: an optional bytes payload and an
optional integer payload. A put of an empty value is distinct from absence
of the key. -/
structure Value where
  bytes : Option Bytes := none
  integer : Option Int := none
  deriving DecidableEq, Repr

/-- Modelled from the spec: a value is "empty" when it carries no bytes
payload or an empty one; the conditional-put case table distinguishes an
empty existing value from an absent key. -/
def Value.isEmptyVal (v : Value) : Bool :=
  v.bytes == none || v.bytes == some []

/-- Modelled from the spec: the store a range serves, as an association
list from keys to values; well-formed stores keep entries in strictly
ascending key order (see Store.keysSorted). -/
abbrev Store := List (Key × Value)

/-- Current value of a key, none when the key is absent. -/
def Store.find (s : Store) (k : Key) : Option Value :=
  s.lookup k

/-- Store a value under a key, preserving ascending key order. -/
def Store.put : Store → Key → Value → Store
  | [], k, v => [(k, v)]
  | (k2, v2) :: rest, k, v =>
    if k = k2 then (k, v) :: rest
    else if keyLt k k2 then (k, v) :: (k2, v2) :: rest
    else (k2, v2) :: Store.put rest k v

/-- Remove a key from the store. -/
def Store.del (s : Store) (k : Key) : Store :=
  s.filter (fun e => !(e.1 == k))

/-- Well-formedness: the keys of the store are pairwise strictly
ascending (so in particular distinct). -/
def Store.keysSorted (s : Store) : Prop :=
  (s.map (fun e => e.1)).Pairwise KeyLtP

instance (s : Store) : Decidable s.keysSorted := by
  unfold Store.keysSorted; infer_instance

/-- Errors surfaced by KV operation execution. The condition-failed error
of conditional put carries the actual current value of the key (none for
"no value"), as the spec requires the response to. -/
inductive KVError where
  | conditionFailed (actual : Option Value)
  | cantDecode
  | invalidArg (msg : String)
  deriving DecidableEq, Repr

/-! ### Conditional Put -/

/-- Modelled from the spec: the ConditionalPut execution. Stores value
only if the current value equals expValue under the four-case table of the
proto comment: store and succeed when the current value equals expValue,
when the key is absent and expValue is nil (the no-value marker), or when
the key holds an empty value and expValue is present but empty; any other
mismatch fails with a value-mismatch error carrying the actual current
value, leaving the store unchanged. -/
def conditionalPut (s : Store) (k : Key) (v : Value) (expValue : Option Value) :
    Store × Option KVError :=
  match s.find k, expValue with
  | some cur, some exp =>
    if cur == exp || (cur.isEmptyVal && exp.isEmptyVal) then (s.put k v, none)
    else (s, some (.conditionFailed (some cur)))
  | none, none => (s.put k v, none)
  | none, some _ => (s, some (.conditionFailed none))
  | some cur, none => (s, some (.conditionFailed (some cur)))

/-! ### Increment -/

/-- Modelled from the spec: the Increment execution. Adds the increment to
the integer interpretation of the key's value, treating absence as zero
(so increment by zero on an absent key establishes a zero value); fails
without touching the store when the key holds a non-integer-encoded
value. -/
def increment (s : Store) (k : Key) (d : Int) : Store × Except KVError Int :=
  match s.find k with
  | none => (s.put k { integer := some d }, .ok d)
  | some v =>
    match v.integer with
    | some i => (s.put k { integer := some (i + d) }, .ok (i + d))
    | none => (s, .error .cantDecode)

/-! ### Delete Range -/

/-- Membership of a key in the half-open interval from lo (inclusive) to
hi (exclusive). -/
def inHalfOpen (lo hi q : Key) : Bool := keyLe lo q && keyLt q hi

/-- The keys of the store lying in the half-open interval, in store
order (ascending for well-formed stores). -/
def rangeKeys (s : Store) (lo hi : Key) : List Key :=
  (s.map (fun e => e.1)).filter (inHalfOpen lo hi)

/-- Modelled from the spec: the DeleteRange execution. A negative bound is
a validation error rejected before execution with no side effect; a zero
bound deletes every key in the interval; a positive bound deletes at most
that many, lowest-key-first; the response reports the number of keys
removed. -/
def deleteRange (s : Store) (lo hi : Key) (maxEntriesToDelete : Int) :
    Store × Except KVError Int :=
  if maxEntriesToDelete < 0 then
    (s, .error (.invalidArg "max_entries_to_delete must not be negative"))
  else
    let inR := rangeKeys s lo hi
    let toDelete := if maxEntriesToDelete = 0 then inR
                    else inR.take maxEntriesToDelete.toNat
    (s.filter (fun e => !(toDelete.contains e.1)), .ok toDelete.length)

/-! ### Command identity and replay guard -/

/-- ClientCmdID as declared in the proto: the client's wall time in unix
nanoseconds and a client-generated random number. Equality is structural. -/
structure ClientCmdID where
  wallTime : Int
  random : Int
  deriving DecidableEq, Repr

/-- The errors and payload of one response, as opaque response content;
byte-identical replies are equal values of this type. -/
structure Response where
  err : Option KVError := none
  payload : Bytes := []
  deriving DecidableEq, Repr

/-- One replay-guard cache entry: the command identity, the response it
produced, and the time it executed. -/
structure CacheEntry where
  id : ClientCmdID
  resp : Response
  execTime : Int
  deriving DecidableEq, Repr

/-- The state the replay guard protects: the store plus the response
cache. -/
structure SysState where
  store : Store
  cache : List CacheEntry
  deriving DecidableEq, Repr

/-- Most recent cache entry for a command identity. -/
def lookupCache (cache : List CacheEntry) (c : ClientCmdID) : Option CacheEntry :=
  cache.find? (fun e => e.id == c)

/-- Modelled from the spec: the replay guard's register step around an
operation. If the identity has a cached entry within the replay window,
the cached response is returned and nothing executes; otherwise the
operation executes and its response is cached under the identity at the
current time. -/
def submitCmd (window : Int) (exec : Store → Response × Store)
    (c : ClientCmdID) (now : Int) (st : SysState) : Response × SysState :=
  match lookupCache st.cache c with
  | some entry =>
    if now - entry.execTime ≤ window then (entry.resp, st)
    else
      let p := exec st.store
      (p.1, { store := p.2, cache := ⟨c, p.1, now⟩ :: st.cache })
  | none =>
    let p := exec st.store
    (p.1, { store := p.2, cache := ⟨c, p.1, now⟩ :: st.cache })

/-! ### Transactions, range topology and commit triggers -/

/-- Transaction status as in the spec's lifecycle: Pending initially,
Committed or Aborted terminal. -/
inductive TxnStatus where
  | pending
  | committed
  | aborted
  deriving DecidableEq, Repr

/-- A range descriptor: the consensus group identity and the half-open
key span the range covers. -/
structure RangeDesc where
  raftID : Int
  startKey : Key
  endKey : Key
  deriving DecidableEq, Repr

/-- The range topology: the list of range descriptors, kept in ascending
boundary order by well-formed topologies. -/
abbrev Topology := List RangeDesc

/-- InternalCommitTrigger as declared in the proto: a split or merge
descriptor attached to a transaction commit. -/
inductive InternalCommitTrigger where
  | splitTrigger (leftID : Int) (splitKey : Key) (newRaftID : Int)
  | mergeTrigger (leftID : Int)
  deriving DecidableEq, Repr

/-- The boundary change a split trigger installs on its range: the range
truncated to end at the split key, followed by the new range from the
split key to the old end key under the freshly allocated identity. -/
def applySplit (splitKey : Key) (newID : Int) (r : RangeDesc) : List RangeDesc :=
  [{ r with endKey := splitKey },
   { raftID := newID, startKey := splitKey, endKey := r.endKey }]

/-- The boundary change a merge trigger installs: the subsumed right
neighbour (the range starting at the left range's end key) disappears and
the left range's span extends to the right neighbour's end key. -/
def applyMerge (topo : Topology) (leftID : Int) : Topology :=
  match topo.find? (fun r => r.raftID == leftID) with
  | none => topo
  | some r =>
    match topo.find? (fun r2 => r2.startKey == r.endKey) with
    | none => topo
    | some r2 =>
      (topo.filter (fun x => !(x.raftID == r2.raftID))).map
        (fun x => if x.raftID = leftID then { x with endKey := r2.endKey } else x)

/-- Modelled from the spec: the metadata effect of an internal commit
trigger on the range topology. -/
def applyTrigger (topo : Topology) : Option InternalCommitTrigger → Topology
  | none => topo
  | some (.splitTrigger leftID splitKey newID) =>
    topo.foldr
      (fun r acc =>
        (if r.raftID = leftID then applySplit splitKey newID r else [r]) ++ acc)
      []
  | some (.mergeTrigger leftID) => applyMerge topo leftID

/-- The state End Transaction acts on: the transaction's status and the
range topology its commit trigger would reshape. -/
structure TxnState where
  status : TxnStatus
  topo : Topology
  deriving DecidableEq, Repr

/-- Modelled from the spec: the End Transaction execution. On a pending
transaction, commit true moves the status to Committed and applies the
internal commit trigger in the same atomic step; commit false moves the
status to Aborted and does not touch the topology. On a transaction
already terminal the call fails and changes nothing, so an aborted
transaction can never later apply its trigger. -/
def endTransaction (commit : Bool) (trigger : Option InternalCommitTrigger)
    (st : TxnState) : TxnState × Option KVError :=
  match st.status with
  | .pending =>
    if commit then
      ({ status := .committed, topo := applyTrigger st.topo trigger }, none)
    else
      ({ status := .aborted, topo := st.topo }, none)
  | .committed => (st, some (.invalidArg "txn already committed"))
  | .aborted => (st, some (.invalidArg "txn already aborted"))

/-! ### Admin merge -/

/-- Modelled from the spec: the AdminMerge execution on the range with the
given identity, in a key space whose maximum key is keyMax. Called on the
final range (the one whose span extends to keyMax) it is a no-op that
succeeds; otherwise the right-adjacent range is subsumed: its key span is
absorbed into the left range and its identity ceases to exist. -/
def adminMerge (keyMax : Key) (topo : Topology) (leftID : Int) :
    Topology × Option KVError :=
  match topo.find? (fun r => r.raftID == leftID) with
  | none => (topo, some (.invalidArg "no such range"))
  | some r =>
    if r.endKey = keyMax then (topo, none)
    else
      match topo.find? (fun r2 => r2.startKey == r.endKey) with
      | none => (topo, some (.invalidArg "no right-adjacent range"))
      | some r2 =>
        ((topo.filter (fun x => !(x.raftID == r2.raftID))).map
          (fun x => if x.raftID = leftID then { x with endKey := r2.endKey } else x),
         none)

/-! ### Batch execution -/

/-- RequestUnion as declared in the proto: exactly one of the operation
kinds, with the request fields each carries. -/
inductive RequestUnion where
  | containsReq (k : Key)
  | getReq (k : Key)
  | putReq (k : Key) (v : Value)
  | conditionalPutReq (k : Key) (v : Value) (expValue : Option Value)
  | incrementReq (k : Key) (d : Int)
  | deleteReq (k : Key)
  | deleteRangeReq (lo hi : Key) (maxEntriesToDelete : Int)
  | scanReq (lo hi : Key) (maxResults : Int)
  | endTransactionReq (commit : Bool)
  deriving DecidableEq, Repr

/-- ResponseUnion as declared in the proto: exactly one of the response
kinds, each carrying its header error slot and its data fields. -/
inductive ResponseUnion where
  | containsResp (e : Option KVError) (found : Bool)
  | getResp (e : Option KVError) (value : Option Value)
  | putResp (e : Option KVError)
  | conditionalPutResp (e : Option KVError)
  | incrementResp (e : Option KVError) (newValue : Int)
  | deleteResp (e : Option KVError)
  | deleteRangeResp (e : Option KVError) (numDeleted : Int)
  | scanResp (e : Option KVError) (rows : List (Key × Value))
  | endTransactionResp (e : Option KVError)
  deriving DecidableEq, Repr

/-- The header error slot of a response. -/
def ResponseUnion.err : ResponseUnion → Option KVError
  | .containsResp e _ => e
  | .getResp e _ => e
  | .putResp e => e
  | .conditionalPutResp e => e
  | .incrementResp e _ => e
  | .deleteResp e => e
  | .deleteRangeResp e _ => e
  | .scanResp e _ => e
  | .endTransactionResp e => e

/-- Modelled from the spec: execution of a single sub-operation against
the store, dispatching on the request variant. Scan rejects a
non-positive max_results before executing. -/
def executeOne (s : Store) : RequestUnion → ResponseUnion × Store
  | .containsReq k => (.containsResp none (s.find k).isSome, s)
  | .getReq k => (.getResp none (s.find k), s)
  | .putReq k v => (.putResp none, s.put k v)
  | .conditionalPutReq k v ev =>
    let p := conditionalPut s k v ev
    (.conditionalPutResp p.2, p.1)
  | .incrementReq k d =>
    match increment s k d with
    | (s2, .ok n) => (.incrementResp none n, s2)
    | (s2, .error e) => (.incrementResp (some e) 0, s2)
  | .deleteReq k => (.deleteResp none, s.del k)
  | .deleteRangeReq lo hi m =>
    match deleteRange s lo hi m with
    | (s2, .ok n) => (.deleteRangeResp none n, s2)
    | (s2, .error e) => (.deleteRangeResp (some e) 0, s2)
  | .scanReq lo hi maxResults =>
    if maxResults ≤ 0 then
      (.scanResp (some (.invalidArg "max_results must be positive")) [], s)
    else
      (.scanResp none
        ((s.filter (fun e => inHalfOpen lo hi e.1)).take maxResults.toNat), s)
  | .endTransactionReq _ => (.endTransactionResp none, s)

/-- Modelled from the spec: sequential execution of the sub-requests of a
batch in request order, collecting one response per request; a failing
sub-operation does not stop execution. -/
def execRequests : Store → List RequestUnion → List ResponseUnion × Store
  | s, [] => ([], s)
  | s, q :: qs =>
    let p := executeOne s q
    let rest := execRequests p.2 qs
    (p.1 :: rest.1, rest.2)

/-- First non-nil error among a list of responses, in order. -/
def firstErr : List ResponseUnion → Option KVError
  | [] => none
  | r :: rs =>
    match r.err with
    | some e => some e
    | none => firstErr rs

/-- A BatchResponse: the batch header's error slot and one sub-response
per sub-request. -/
structure BatchResponseData where
  headerErr : Option KVError
  responses : List ResponseUnion
  deriving DecidableEq, Repr

/-- Modelled from the spec: the Batch execution. All sub-requests execute
in request order; the batch header error is set to the first error among
the sub-responses, while all sub-responses are still returned. -/
def executeBatch (s : Store) (reqs : List RequestUnion) :
    BatchResponseData × Store :=
  let p := execRequests s reqs
  ({ headerErr := firstErr p.1, responses := p.1 }, p.2)

/-! ## Helper lemmas -/

theorem lookup_lt_of_bounded (cells : List (Nat × TlsStdConfig)) (a bound : Nat)
    (v : TlsStdConfig) (hb : ∀ c ∈ cells, c.1 < bound)
    (hr : cells.lookup a = some v) : a < bound := by
  induction cells with
  | nil => simp at hr
  | cons c rest ih =>
    obtain ⟨k, u⟩ := c
    rw [List.lookup_cons] at hr
    by_cases hak : a = k
    · exact hak ▸ hb (k, u) (List.mem_cons_self _ _)
    · rw [beq_eq_false_iff_ne.mpr hak] at hr
      exact ih (fun d hd => hb d (List.mem_cons_of_mem _ hd)) hr

theorem lookup_map_overwrite (cells : List (Nat × TlsStdConfig)) (a b : Nat)
    (w : TlsStdConfig) (hne : a ≠ b) :
    (cells.map (fun c => if c.1 = b then (b, w) else c)).lookup a =
      cells.lookup a := by
  induction cells with
  | nil => simp
  | cons c rest ih =>
    obtain ⟨k, u⟩ := c
    by_cases hkb : k = b
    · subst hkb
      simp [List.lookup_cons, beq_eq_false_iff_ne.mpr hne, ih]
    · by_cases hak : a = k
      · subst hak
        simp [List.lookup_cons, hkb]
      · simp [List.lookup_cons, hkb, beq_eq_false_iff_ne.mpr hak, ih]

theorem Heap.read_write_other (h : Heap) (a b : Nat) (w : TlsStdConfig)
    (hne : a ≠ b) : (h.write b w).read a = h.read a :=
  lookup_map_overwrite h.cells a b w hne

theorem Heap.read_alloc_self (h : Heap) (v : TlsStdConfig) :
    (h.alloc v).2.read (h.alloc v).1 = some v := by
  simp [Heap.alloc, Heap.read, List.lookup_cons]

theorem Heap.read_alloc_other (h : Heap) (v : TlsStdConfig) (a : Nat)
    (hne : a ≠ h.next) : (h.alloc v).2.read a = h.read a := by
  simp [Heap.alloc, Heap.read, List.lookup_cons, beq_eq_false_iff_ne.mpr hne]

/-! ## Claim theorems: channel security (tls.go) -/

/-- C8: TLSConfig.Config returns nil exactly when the stored configuration
is nil; otherwise it returns a fresh pointer, distinct from the stored one,
to a copy of the stored configuration, so that writing through the returned
pointer leaves the stored configuration unchanged. -/
theorem tlsConfig_config_returns_copy (c : TLSConfig) (h : Heap) (hwf : h.wf) :
    (c.config = none → c.Config h = (none, h)) ∧
    (∀ a v, c.config = some a → h.read a = some v →
      ∃ a2 h2, c.Config h = (some a2, h2) ∧ a2 ≠ a ∧
        h2.read a2 = some v ∧ h2.read a = some v ∧
        ∀ w, (h2.write a2 w).read a = some v) := by
  constructor
  · intro hc
    simp [TLSConfig.Config, hc]
  · intro a v hc hr
    have halt : a < h.next := lookup_lt_of_bounded h.cells a h.next v hwf hr
    have hne : a ≠ h.next := Nat.ne_of_lt halt
    refine ⟨h.next, (h.alloc v).2, ?_, fun he => hne he.symm, ?_, ?_, ?_⟩
    · simp [TLSConfig.Config, hc, hr, Heap.alloc]
    · exact Heap.read_alloc_self h v
    · rw [Heap.read_alloc_other h v a hne]; exact hr
    · intro w
      rw [Heap.read_write_other _ a h.next w hne,
        Heap.read_alloc_other h v a hne]
      exact hr

/-- C8 witness: on a concrete heap holding one configuration at address 0,
Config returns the fresh address 1 with a copy, and writing through it
leaves address 0 unchanged. -/
theorem tlsConfig_config_returns_copy_witness :
    ((⟨some 0⟩ : TLSConfig).config = none →
      TLSConfig.Config ⟨some 0⟩ ⟨1, [(0, {})]⟩ = (none, ⟨1, [(0, {})]⟩)) ∧
    (∀ a v, (⟨some 0⟩ : TLSConfig).config = some a →
      Heap.read ⟨1, [(0, {})]⟩ a = some v →
      ∃ a2 h2, TLSConfig.Config ⟨some 0⟩ ⟨1, [(0, {})]⟩ = (some a2, h2) ∧
        a2 ≠ a ∧ h2.read a2 = some v ∧ h2.read a = some v ∧
        ∀ w, (h2.write a2 w).read a = some v) :=
  tlsConfig_config_returns_copy ⟨some 0⟩ ⟨1, [(0, {})]⟩ (by decide)

/-- C9: the loaders fail fatally, returning an error and no configuration,
whenever the node key pair does not parse, the CA PEM data cannot be added
to the pool, or a required certificate file cannot be read. -/
theorem loaders_fail_on_bad_material (lib : StdLib)
    (readFile : String → Except String Bytes)
    (certPEM keyPEM caPEM : Bytes) (certDir : String) :
    (∀ e, lib.x509KeyPair certPEM keyPEM = .error e →
      LoadTLSConfig lib certPEM keyPEM caPEM = .error e) ∧
    (lib.pemCerts caPEM = none →
      ∃ e, LoadTLSConfig lib certPEM keyPEM caPEM = .error e) ∧
    (lib.pemCerts caPEM = none →
      ∃ e, LoadClientTLSConfig lib caPEM = .error e) ∧
    (∀ e, readFile (pathJoin (stripEmbedded certDir) "node.crt") = .error e →
      LoadTLSConfigFromDir lib readFile certDir = .error e) ∧
    (∀ pem1 e,
      readFile (pathJoin (stripEmbedded certDir) "node.crt") = .ok pem1 →
      readFile (pathJoin (stripEmbedded certDir) "node.key") = .error e →
      LoadTLSConfigFromDir lib readFile certDir = .error e) ∧
    (∀ pem1 pem2 e,
      readFile (pathJoin (stripEmbedded certDir) "node.crt") = .ok pem1 →
      readFile (pathJoin (stripEmbedded certDir) "node.key") = .ok pem2 →
      readFile (pathJoin (stripEmbedded certDir) "ca.crt") = .error e →
      LoadTLSConfigFromDir lib readFile certDir = .error e) ∧
    (∀ e, readFile (pathJoin (stripEmbedded certDir) "ca.crt") = .error e →
      LoadClientTLSConfigFromDir lib readFile certDir = .error e) := by
  refine ⟨?_, ?_, ?_, ?_, ?_, ?_, ?_⟩
  · intro e he
    simp [LoadTLSConfig, he]
  · intro hca
    cases hk : lib.x509KeyPair certPEM keyPEM with
    | error e => exact ⟨e, by simp [LoadTLSConfig, hk]⟩
    | ok cert =>
      exact ⟨"failed to parse PEM data to pool", by simp [LoadTLSConfig, hk, hca]⟩
  · intro hca
    exact ⟨"failed to parse PEM data to pool", by simp [LoadClientTLSConfig, hca]⟩
  · intro e he
    simp [LoadTLSConfigFromDir, he]
  · intro pem1 e h1 he
    simp [LoadTLSConfigFromDir, h1, he]
  · intro pem1 pem2 e h1 h2 he
    simp [LoadTLSConfigFromDir, h1, h2, he]
  · intro e he
    simp [LoadClientTLSConfigFromDir, he]

/-- C9 witness: a concrete standard library and file readers on which the
key pair fails to parse, the CA PEM fails to pool, and a read of each of
the three required certificate files fails in turn — node.crt unreadable,
node.key unreadable with node.crt readable, and ca.crt unreadable with
both others readable — each yielding a loader error. -/
theorem loaders_fail_on_bad_material_witness :
    LoadTLSConfig ⟨fun _ _ => .error "bad key pair", fun _ => none⟩ [] [] [] =
      .error "bad key pair" ∧
    (∃ e, LoadClientTLSConfig ⟨fun _ _ => .error "bad key pair", fun _ => none⟩ [] =
      .error e) ∧
    LoadTLSConfigFromDir ⟨fun _ _ => .error "bad key pair", fun _ => none⟩
      (fun _ => .error "unreadable") "certs" = .error "unreadable" ∧
    LoadTLSConfigFromDir ⟨fun _ _ => .error "bad key pair", fun _ => none⟩
      (fun p => if p = "certs/node.key" then .error "unreadable key" else .ok [])
      "certs" = .error "unreadable key" ∧
    LoadTLSConfigFromDir ⟨fun _ _ => .error "bad key pair", fun _ => none⟩
      (fun p => if p = "certs/ca.crt" then .error "unreadable ca" else .ok [])
      "certs" = .error "unreadable ca" ∧
    LoadClientTLSConfigFromDir ⟨fun _ _ => .error "bad key pair", fun _ => none⟩
      (fun _ => .error "unreadable") "certs" = .error "unreadable" := by
  have h := loaders_fail_on_bad_material
    ⟨fun _ _ => .error "bad key pair", fun _ => none⟩
    (fun _ => .error "unreadable") [] [] [] "certs"
  have hkey := loaders_fail_on_bad_material
    ⟨fun _ _ => .error "bad key pair", fun _ => none⟩
    (fun p => if p = "certs/node.key" then .error "unreadable key" else .ok [])
    [] [] [] "certs"
  have hca := loaders_fail_on_bad_material
    ⟨fun _ _ => .error "bad key pair", fun _ => none⟩
    (fun p => if p = "certs/ca.crt" then .error "unreadable ca" else .ok [])
    [] [] [] "certs"
  exact ⟨h.1 "bad key pair" rfl, h.2.2.1 rfl, h.2.2.2.1 "unreadable" rfl,
    hkey.2.2.2.2.1 [] "unreadable key" rfl rfl,
    hca.2.2.2.2.2.1 [] [] "unreadable ca" rfl rfl rfl,
    h.2.2.2.2.2.2 "unreadable" rfl⟩

/-- C10: on successfully parsed material, the client configuration always
sets InsecureSkipVerify and requires TLS 1.2, while the server
configuration requires only TLS 1.1 and verifies a client certificate
only if one is given. -/
theorem loaded_config_versions_and_verification (lib : StdLib)
    (certPEM keyPEM caPEM : Bytes) (cert : Certificate) (pool : List Bytes)
    (hk : lib.x509KeyPair certPEM keyPEM = .ok cert)
    (hca : lib.pemCerts caPEM = some pool) :
    (∃ cfg, LoadTLSConfig lib certPEM keyPEM caPEM = .ok cfg ∧
      cfg.minVersion = VersionTLS11 ∧
      cfg.clientAuth = .verifyClientCertIfGiven ∧
      cfg.rootCAs = some pool ∧ cfg.insecureSkipVerify = false) ∧
    (∃ cfg, LoadClientTLSConfig lib caPEM = .ok cfg ∧
      cfg.insecureSkipVerify = true ∧
      cfg.minVersion = VersionTLS12 ∧
      cfg.rootCAs = some pool) := by
  constructor
  · have hres : LoadTLSConfig lib certPEM keyPEM caPEM = .ok
        { certificates := [cert]
          clientAuth := .verifyClientCertIfGiven
          rootCAs := some pool
          clientCAs := some pool
          preferServerCipherSuites := true
          minVersion := VersionTLS11 } := by
      simp [LoadTLSConfig, hk, hca]
    exact ⟨_, hres, rfl, rfl, rfl, rfl⟩
  · have hres : LoadClientTLSConfig lib caPEM = .ok
        { rootCAs := some pool
          insecureSkipVerify := true
          minVersion := VersionTLS12 } := by
      simp [LoadClientTLSConfig, hca]
    exact ⟨_, hres, rfl, rfl, rfl⟩

/-- C10 witness: a concrete standard library on which both loaders succeed
with the stated version and verification settings. -/
theorem loaded_config_versions_and_verification_witness :
    (∃ cfg, LoadTLSConfig ⟨fun c k => .ok ⟨c, k⟩, fun p => some [p]⟩
        [1] [2] [3] = .ok cfg ∧
      cfg.minVersion = VersionTLS11 ∧
      cfg.clientAuth = .verifyClientCertIfGiven ∧
      cfg.rootCAs = some [[3]] ∧ cfg.insecureSkipVerify = false) ∧
    (∃ cfg, LoadClientTLSConfig ⟨fun c k => .ok ⟨c, k⟩, fun p => some [p]⟩
        [3] = .ok cfg ∧
      cfg.insecureSkipVerify = true ∧
      cfg.minVersion = VersionTLS12 ∧
      cfg.rootCAs = some [[3]]) :=
  loaded_config_versions_and_verification
    ⟨fun c k => .ok ⟨c, k⟩, fun p => some [p]⟩ [1] [2] [3] ⟨[1], [2]⟩ [[3]]
    rfl rfl

/-! ## Helper lemmas: stores -/

theorem Store.find_put_self (s : Store) (k : Key) (v : Value) :
    (s.put k v).find k = some v := by
  induction s with
  | nil => simp [Store.put, Store.find, List.lookup_cons]
  | cons e rest ih =>
    obtain ⟨k2, v2⟩ := e
    by_cases hk : k = k2
    · subst hk
      simp [Store.put, Store.find, List.lookup_cons]
    · by_cases hlt : keyLt k k2 = true
      · simp [Store.put, hk, hlt, Store.find, List.lookup_cons]
      · simp only [Store.put, if_neg hk, hlt, if_neg, Bool.false_eq_true,
          not_false_eq_true]
        simpa [Store.find, List.lookup_cons, beq_eq_false_iff_ne.mpr hk] using ih

theorem Store.find_put_other (s : Store) (k q : Key) (v : Value) (hqk : q ≠ k) :
    (s.put k v).find q = s.find q := by
  induction s with
  | nil => simp [Store.put, Store.find, List.lookup_cons,
      beq_eq_false_iff_ne.mpr hqk]
  | cons e rest ih =>
    obtain ⟨k2, v2⟩ := e
    by_cases hk : k = k2
    · subst hk
      simp [Store.put, Store.find, List.lookup_cons,
        beq_eq_false_iff_ne.mpr hqk]
    · by_cases hlt : keyLt k k2 = true
      · simp [Store.put, hk, hlt, Store.find, List.lookup_cons,
          beq_eq_false_iff_ne.mpr hqk]
      · by_cases hq2 : q = k2
        · subst hq2
          simp [Store.put, hk, hlt, Store.find, List.lookup_cons]
        · simp only [Store.put, if_neg hk, hlt, Bool.false_eq_true,
            not_false_eq_true, if_neg]
          simpa [Store.find, List.lookup_cons,
            beq_eq_false_iff_ne.mpr hq2] using ih

theorem Store.find_eq_none_of_not_mem_keys (s : Store) (q : Key)
    (h : q ∉ s.map (fun e => e.1)) : s.find q = none := by
  induction s with
  | nil => rfl
  | cons e rest ih =>
    obtain ⟨k, v⟩ := e
    simp only [List.map_cons, List.mem_cons, not_or] at h
    simpa [Store.find, List.lookup_cons, beq_eq_false_iff_ne.mpr h.1] using
      ih h.2

theorem Store.find_filter_mem_del (s : Store) (D : List Key) (q : Key)
    (hq : q ∈ D) :
    Store.find (s.filter (fun e => !(D.contains e.1))) q = none := by
  induction s with
  | nil => rfl
  | cons e rest ih =>
    obtain ⟨k, v⟩ := e
    by_cases hk : k ∈ D
    · simpa [List.filter_cons, hk] using ih
    · have hqk : q ≠ k := fun h => hk (h ▸ hq)
      simpa [List.filter_cons, hk, Store.find, List.lookup_cons,
        beq_eq_false_iff_ne.mpr hqk] using ih

theorem Store.find_filter_not_mem_keep (s : Store) (D : List Key) (q : Key)
    (hq : q ∉ D) :
    Store.find (s.filter (fun e => !(D.contains e.1))) q = s.find q := by
  induction s with
  | nil => rfl
  | cons e rest ih =>
    obtain ⟨k, v⟩ := e
    by_cases hqk : q = k
    · subst hqk
      simp [List.filter_cons, hq, Store.find, List.lookup_cons]
    · by_cases hk : k ∈ D
      · simpa [List.filter_cons, hk, Store.find, List.lookup_cons,
          beq_eq_false_iff_ne.mpr hqk] using ih
      · simpa [List.filter_cons, hk, Store.find, List.lookup_cons,
          beq_eq_false_iff_ne.mpr hqk] using ih

theorem keyLt_irrefl (a : Key) : keyLt a a = false := by
  induction a with
  | nil => rfl
  | cons x xs ih => simp [keyLt, ih]

theorem mem_rangeKeys_iff (s : Store) (lo hi q : Key) :
    q ∈ rangeKeys s lo hi ↔
      q ∈ s.map (fun e => e.1) ∧ inHalfOpen lo hi q = true := by
  simp [rangeKeys, List.mem_filter]

/-! ## Claim theorems: conditional put -/

/-- C1: the ConditionalPut store-or-fail decision follows the exact
four-case table — equal current value, absent key with nil expectation, or
empty current value with present-but-empty expectation store the value and
succeed; any other mismatch fails with a value-mismatch error carrying the
actual current value and leaves the store unchanged. -/
theorem conditionalPut_case_table (s : Store) (k : Key) (v : Value)
    (expValue : Option Value) :
    (∀ cur, s.find k = some cur → expValue = some cur →
      conditionalPut s k v expValue = (s.put k v, none)) ∧
    (s.find k = none → expValue = none →
      conditionalPut s k v expValue = (s.put k v, none)) ∧
    (∀ cur exp, s.find k = some cur → expValue = some exp →
      cur.isEmptyVal = true → exp.isEmptyVal = true →
      conditionalPut s k v expValue = (s.put k v, none)) ∧
    (∀ cur exp, s.find k = some cur → expValue = some exp → cur ≠ exp →
      (cur.isEmptyVal && exp.isEmptyVal) = false →
      conditionalPut s k v expValue = (s, some (.conditionFailed (some cur)))) ∧
    (∀ exp, s.find k = none → expValue = some exp →
      conditionalPut s k v expValue = (s, some (.conditionFailed none))) ∧
    (∀ cur, s.find k = some cur → expValue = none →
      conditionalPut s k v expValue = (s, some (.conditionFailed (some cur)))) ∧
    ((conditionalPut s k v expValue).2 = none →
      (conditionalPut s k v expValue).1.find k = some v) ∧
    (∀ e, (conditionalPut s k v expValue).2 = some e →
      (conditionalPut s k v expValue).1 = s ∧
      e = .conditionFailed (s.find k)) := by
  refine ⟨?_, ?_, ?_, ?_, ?_, ?_, ?_, ?_⟩
  · intro cur h1 h2
    simp [conditionalPut, h1, h2]
  · intro h1 h2
    simp [conditionalPut, h1, h2]
  · intro cur exp h1 h2 he1 he2
    simp [conditionalPut, h1, h2, he1, he2]
  · intro cur exp h1 h2 hne hemp
    simp [conditionalPut, h1, h2, hne, hemp]
  · intro exp h1 h2
    simp [conditionalPut, h1, h2]
  · intro cur h1 h2
    simp [conditionalPut, h1, h2]
  · intro hok
    cases h1 : s.find k with
    | none =>
      cases h2 : expValue with
      | none => simp [conditionalPut, h1, h2, Store.find_put_self]
      | some exp => simp [conditionalPut, h1, h2] at hok
    | some cur =>
      cases h2 : expValue with
      | none => simp [conditionalPut, h1, h2] at hok
      | some exp =>
        by_cases hc : (cur == exp || (cur.isEmptyVal && exp.isEmptyVal)) = true
        · simp [conditionalPut, h1, h2, hc, Store.find_put_self]
        · simp [conditionalPut, h1, h2, hc] at hok
  · intro e he
    cases h1 : s.find k with
    | none =>
      cases h2 : expValue with
      | none => simp [conditionalPut, h1, h2] at he
      | some exp =>
        constructor
        · simp [conditionalPut, h1, h2]
        · have he2 : KVError.conditionFailed none = e := by
            simpa [conditionalPut, h1, h2] using he
          exact he2.symm
    | some cur =>
      cases h2 : expValue with
      | none =>
        constructor
        · simp [conditionalPut, h1, h2]
        · have he2 : KVError.conditionFailed (some cur) = e := by
            simpa [conditionalPut, h1, h2] using he
          exact he2.symm
      | some exp =>
        by_cases hc : (cur == exp || (cur.isEmptyVal && exp.isEmptyVal)) = true
        · simp [conditionalPut, h1, h2, hc] at he
        · have hcond : (cur == exp || (cur.isEmptyVal && exp.isEmptyVal)) = false := by
            simpa using hc
          constructor
          · simp [conditionalPut, h1, h2, hcond]
          · have he2 : KVError.conditionFailed (some cur) = e := by
              simpa [conditionalPut, h1, h2, hcond] using he
            exact he2.symm

/-- C1 witness: the literal case-table scenarios — absent key with nil
expectation succeeds; absent key with a bytes expectation fails returning
no value; present value "a" expected "a" succeeds; present value "a"
expected "b" fails returning "a". -/
theorem conditionalPut_case_table_witness :
    conditionalPut [] [107] { bytes := some [120] } none =
      ([([107], { bytes := some [120] })], none) ∧
    conditionalPut [] [107] { bytes := some [120] }
        (some { bytes := some [120] }) =
      ([], some (.conditionFailed none)) ∧
    conditionalPut [([107], { bytes := some [97] })] [107]
        { bytes := some [98] } (some { bytes := some [97] }) =
      ([([107], { bytes := some [98] })], none) ∧
    conditionalPut [([107], { bytes := some [97] })] [107]
        { bytes := some [99] } (some { bytes := some [98] }) =
      ([([107], { bytes := some [97] })],
        some (.conditionFailed (some { bytes := some [97] }))) := by
  refine ⟨?_, ?_, ?_, ?_⟩
  · exact (conditionalPut_case_table [] [107] { bytes := some [120] }
      none).2.1 rfl rfl
  · exact (conditionalPut_case_table [] [107] { bytes := some [120] }
      (some { bytes := some [120] })).2.2.2.2.1 { bytes := some [120] }
      rfl rfl
  · exact (conditionalPut_case_table [([107], { bytes := some [97] })]
      [107] { bytes := some [98] } (some { bytes := some [97] })).1
      { bytes := some [97] } (by decide) rfl
  · exact (conditionalPut_case_table [([107], { bytes := some [97] })]
      [107] { bytes := some [99] }
      (some { bytes := some [98] })).2.2.2.1 { bytes := some [97] }
      { bytes := some [98] } (by decide) rfl (by decide) (by decide)

/-! ## Claim theorems: increment -/

/-- C5: Increment adds the delta to the integer interpretation of the
key's value, treats an absent key as zero (so a zero increment still
establishes the key with value zero), and fails without side effect on a
non-integer-encoded value. -/
theorem increment_semantics (s : Store) (k : Key) (d : Int) :
    (∀ v i, s.find k = some v → v.integer = some i →
      increment s k d = (s.put k { integer := some (i + d) }, .ok (i + d)) ∧
      (increment s k d).1.find k = some { integer := some (i + d) }) ∧
    (s.find k = none →
      increment s k d = (s.put k { integer := some d }, .ok d) ∧
      (increment s k d).1.find k = some { integer := some d }) ∧
    (∀ v, s.find k = some v → v.integer = none →
      increment s k d = (s, .error .cantDecode)) := by
  refine ⟨?_, ?_, ?_⟩
  · intro v i h1 h2
    constructor
    · simp [increment, h1, h2]
    · simp [increment, h1, h2, Store.find_put_self]
  · intro h1
    constructor
    · simp [increment, h1]
    · simp [increment, h1, Store.find_put_self]
  · intro v h1 h2
    simp [increment, h1, h2]

/-- C5 witness: the literal scenario — increment by zero on an absent key
yields zero and creates the key; a following increment by five yields
five. -/
theorem increment_semantics_witness :
    increment [] [107] 0 =
      ([([107], { integer := some 0 })], .ok 0) ∧
    Store.find [([107], { integer := some 0 })] [107] =
      some { integer := some 0 } ∧
    increment [([107], { integer := some 0 })] [107] 5 =
      ([([107], { integer := some 5 })], .ok 5) := by
  refine ⟨?_, by decide, ?_⟩
  · exact ((increment_semantics [] [107] 0).2.1 rfl).1
  · have h := ((increment_semantics [([107], { integer := some 0 })]
      [107] 5).1 { integer := some 0 } 0 (by decide) rfl).1
    simpa using h

/-! ## Claim theorems: delete range -/

/-- C6: DeleteRange deletes all keys of the half-open range when the bound
is zero, at most the bound many keys lowest-key-first when it is positive,
rejects a negative bound before execution with no side effect, and reports
the number of keys actually removed. -/
theorem deleteRange_semantics (s : Store) (lo hi : Key) (m : Int)
    (hwf : s.keysSorted) :
    (m < 0 → deleteRange s lo hi m =
      (s, .error (.invalidArg "max_entries_to_delete must not be negative"))) ∧
    (m = 0 →
      (deleteRange s lo hi m).2 = .ok ((rangeKeys s lo hi).length : Int) ∧
      (∀ q, inHalfOpen lo hi q = true →
        Store.find (deleteRange s lo hi m).1 q = none) ∧
      (∀ q, inHalfOpen lo hi q = false →
        Store.find (deleteRange s lo hi m).1 q = s.find q)) ∧
    (0 < m →
      (deleteRange s lo hi m).2 =
        .ok ((min m.toNat (rangeKeys s lo hi).length : Nat) : Int) ∧
      (∀ q ∈ (rangeKeys s lo hi).take m.toNat,
        Store.find (deleteRange s lo hi m).1 q = none) ∧
      (∀ q ∈ (rangeKeys s lo hi).drop m.toNat,
        Store.find (deleteRange s lo hi m).1 q = s.find q) ∧
      (∀ q, inHalfOpen lo hi q = false →
        Store.find (deleteRange s lo hi m).1 q = s.find q) ∧
      ((rangeKeys s lo hi).length ≤ m.toNat →
        ∀ q, inHalfOpen lo hi q = true →
          Store.find (deleteRange s lo hi m).1 q = none) ∧
      (∀ a ∈ (rangeKeys s lo hi).take m.toNat,
        ∀ b ∈ (rangeKeys s lo hi).drop m.toNat, keyLt a b = true)) := by
  refine ⟨?_, ?_, ?_⟩
  · intro h
    simp [deleteRange, h]
  · intro h
    subst h
    have hres : deleteRange s lo hi 0 =
        (s.filter (fun e => !((rangeKeys s lo hi).contains e.1)),
          .ok ((rangeKeys s lo hi).length : Int)) := by
      simp [deleteRange]
    refine ⟨by rw [hres], ?_, ?_⟩
    · intro q hq
      rw [hres]
      by_cases hmem : q ∈ rangeKeys s lo hi
      · exact Store.find_filter_mem_del s _ q hmem
      · have hnk : q ∉ s.map (fun e => e.1) := fun hk =>
          hmem ((mem_rangeKeys_iff s lo hi q).mpr ⟨hk, hq⟩)
        rw [Store.find_filter_not_mem_keep s _ q hmem]
        exact Store.find_eq_none_of_not_mem_keys s q hnk
    · intro q hq
      rw [hres]
      have hmem : q ∉ rangeKeys s lo hi := fun hm => by
        have := ((mem_rangeKeys_iff s lo hi q).mp hm).2
        rw [hq] at this
        exact Bool.false_ne_true this
      exact Store.find_filter_not_mem_keep s _ q hmem
  · intro hpos
    have hm0 : ¬ m = 0 := by omega
    have hmneg : ¬ m < 0 := by omega
    have hres : deleteRange s lo hi m =
        (s.filter
            (fun e => !(((rangeKeys s lo hi).take m.toNat).contains e.1)),
          .ok ((((rangeKeys s lo hi).take m.toNat).length : Nat) : Int)) := by
      simp [deleteRange, hm0, hmneg]
    have hpair : (rangeKeys s lo hi).Pairwise KeyLtP :=
      List.Pairwise.filter _ hwf
    have hsplitpair :
        ((rangeKeys s lo hi).take m.toNat ++
          (rangeKeys s lo hi).drop m.toNat).Pairwise KeyLtP := by
      rw [List.take_append_drop]
      exact hpair
    have hcross := (List.pairwise_append.mp hsplitpair).2.2
    refine ⟨?_, ?_, ?_, ?_, ?_, ?_⟩
    · rw [hres]
      simp [List.length_take]
    · intro q hq
      rw [hres]
      exact Store.find_filter_mem_del s _ q hq
    · intro q hq
      rw [hres]
      have hnt : q ∉ (rangeKeys s lo hi).take m.toNat := by
        intro ht
        have hqq : keyLt q q = true := hcross q ht q hq
        rw [keyLt_irrefl q] at hqq
        exact Bool.false_ne_true hqq
      exact Store.find_filter_not_mem_keep s _ q hnt
    · intro q hq
      rw [hres]
      have hmem : q ∉ rangeKeys s lo hi := fun hm => by
        have := ((mem_rangeKeys_iff s lo hi q).mp hm).2
        rw [hq] at this
        exact Bool.false_ne_true this
      have hnt : q ∉ (rangeKeys s lo hi).take m.toNat := fun ht =>
        hmem (List.mem_of_mem_take ht)
      exact Store.find_filter_not_mem_keep s _ q hnt
    · intro hlen q hq
      rw [hres]
      rw [List.take_of_length_le hlen]
      by_cases hmem : q ∈ rangeKeys s lo hi
      · exact Store.find_filter_mem_del s _ q hmem
      · have hnk : q ∉ s.map (fun e => e.1) := fun hk =>
          hmem ((mem_rangeKeys_iff s lo hi q).mpr ⟨hk, hq⟩)
        rw [Store.find_filter_not_mem_keep s _ q hmem]
        exact Store.find_eq_none_of_not_mem_keys s q hnk
    · intro a ha b hb
      exact hcross a ha b hb

/-- C6 witness: on the range holding keys a, b, c, d, a delete from a to e
with bound two removes a and b reporting two deleted, and with bound zero
removes all four reporting four deleted. -/
theorem deleteRange_semantics_witness :
    (deleteRange [([97], {}), ([98], {}), ([99], {}), ([100], {})]
        [97] [101] 2).2 = .ok 2 ∧
    Store.find (deleteRange [([97], {}), ([98], {}), ([99], {}), ([100], {})]
        [97] [101] 2).1 [97] = none ∧
    Store.find (deleteRange [([97], {}), ([98], {}), ([99], {}), ([100], {})]
        [97] [101] 2).1 [98] = none ∧
    Store.find (deleteRange [([97], {}), ([98], {}), ([99], {}), ([100], {})]
        [97] [101] 2).1 [99] =
      Store.find [([97], {}), ([98], {}), ([99], {}), ([100], {})] [99] ∧
    (deleteRange [([97], {}), ([98], {}), ([99], {}), ([100], {})]
        [97] [101] 0).2 = .ok 4 ∧
    Store.find (deleteRange [([97], {}), ([98], {}), ([99], {}), ([100], {})]
        [97] [101] 0).1 [99] = none := by
  have h2 := deleteRange_semantics
    [([97], {}), ([98], {}), ([99], {}), ([100], {})] [97] [101] 2 (by decide)
  have h0 := deleteRange_semantics
    [([97], {}), ([98], {}), ([99], {}), ([100], {})] [97] [101] 0 (by decide)
  refine ⟨?_, ?_, ?_, ?_, ?_, ?_⟩
  · rw [(h2.2.2 (by decide)).1]
    rfl
  · exact (h2.2.2 (by decide)).2.1 [97] (by decide)
  · exact (h2.2.2 (by decide)).2.1 [98] (by decide)
  · exact (h2.2.2 (by decide)).2.2.1 [99] (by decide)
  · rw [(h0.2.1 rfl).1]
    rfl
  · exact (h0.2.1 rfl).2.1 [99] (by decide)

/-! ## Claim theorems: replay guard -/

/-- C2: submitting the same command identity a second time within the
replay window returns the identical response produced by the first call,
error included, and re-executes nothing — the state is unchanged and the
result does not depend on the executor at all. -/
theorem replay_returns_cached (window : Int) (exec : Store → Response × Store)
    (c : ClientCmdID) (t1 t2 : Int) (st : SysState)
    (hfresh : lookupCache st.cache c = none)
    (hwin : t2 - t1 ≤ window) :
    (submitCmd window exec c t2 (submitCmd window exec c t1 st).2).1 =
      (submitCmd window exec c t1 st).1 ∧
    (submitCmd window exec c t2 (submitCmd window exec c t1 st).2).2 =
      (submitCmd window exec c t1 st).2 ∧
    (∀ exec2, submitCmd window exec2 c t2 (submitCmd window exec c t1 st).2 =
      submitCmd window exec c t2 (submitCmd window exec c t1 st).2) := by
  have h1 : submitCmd window exec c t1 st =
      ((exec st.store).1,
        { store := (exec st.store).2,
          cache := ⟨c, (exec st.store).1, t1⟩ :: st.cache }) := by
    simp [submitCmd, hfresh]
  have h2 : ∀ ex : Store → Response × Store,
      submitCmd window ex c t2 (submitCmd window exec c t1 st).2 =
        ((exec st.store).1, (submitCmd window exec c t1 st).2) := by
    intro ex
    rw [h1]
    simp [submitCmd, lookupCache, List.find?_cons_of_pos, hwin]
  refine ⟨?_, ?_, ?_⟩
  · rw [h2 exec, h1]
  · rw [h2 exec]
  · intro exec2
    rw [h2 exec2, h2 exec]

/-- C2 witness: a concrete put executed under a command identity and
replayed one second later within a one-hour window returns the cached
response with no further state change. -/
theorem replay_returns_cached_witness :
    (submitCmd 3600000000000 (fun s => (⟨none, [1]⟩, s.put [107] {}))
        ⟨5, 42⟩ 1000000000
        (submitCmd 3600000000000 (fun s => (⟨none, [1]⟩, s.put [107] {}))
          ⟨5, 42⟩ 0 ⟨[], []⟩).2).1 =
      (submitCmd 3600000000000 (fun s => (⟨none, [1]⟩, s.put [107] {}))
        ⟨5, 42⟩ 0 ⟨[], []⟩).1 ∧
    (submitCmd 3600000000000 (fun s => (⟨none, [1]⟩, s.put [107] {}))
        ⟨5, 42⟩ 1000000000
        (submitCmd 3600000000000 (fun s => (⟨none, [1]⟩, s.put [107] {}))
          ⟨5, 42⟩ 0 ⟨[], []⟩).2).2 =
      (submitCmd 3600000000000 (fun s => (⟨none, [1]⟩, s.put [107] {}))
        ⟨5, 42⟩ 0 ⟨[], []⟩).2 := by
  have h := replay_returns_cached 3600000000000
    (fun s => (⟨none, [1]⟩, s.put [107] {})) ⟨5, 42⟩ 0 1000000000
    ⟨[], []⟩ rfl (by decide)
  exact ⟨h.1, h.2.1⟩

/-! ## Claim theorems: end transaction and commit triggers -/

/-- C3: on a pending transaction, End Transaction with commit false aborts
without touching the range topology; with commit true it flips the status
to Committed and applies the internal commit trigger once, in that same
atomic step; and an aborted transaction can never later apply its trigger,
however many further End Transaction calls are made. -/
theorem endTransaction_trigger_atomicity (st : TxnState)
    (trigger : Option InternalCommitTrigger) (hp : st.status = .pending) :
    (endTransaction false trigger st =
      ({ status := .aborted, topo := st.topo }, none)) ∧
    (endTransaction true trigger st =
      ({ status := .committed, topo := applyTrigger st.topo trigger }, none)) ∧
    (∀ st2 : TxnState, st2.status = .aborted →
      ∀ commit2 trigger2, endTransaction commit2 trigger2 st2 =
        (st2, some (.invalidArg "txn already aborted"))) ∧
    (∀ st2 : TxnState, st2.status = .aborted →
      ∀ calls : List (Bool × Option InternalCommitTrigger),
        calls.foldl (fun acc call => (endTransaction call.1 call.2 acc).1)
          st2 = st2) := by
  refine ⟨?_, ?_, ?_, ?_⟩
  · simp [endTransaction, hp]
  · simp [endTransaction, hp]
  · intro st2 h2 commit2 trigger2
    simp [endTransaction, h2]
  · intro st2 h2 calls
    induction calls with
    | nil => rfl
    | cons cl rest ih =>
      have hstep : (endTransaction cl.1 cl.2 st2).1 = st2 := by
        simp [endTransaction, h2]
      simpa [List.foldl_cons, hstep] using ih

/-- C3 witness: a split trigger on a pending transaction over one range is
not applied on abort, is applied exactly at the committing step, and a
later commit attempt on the aborted transaction changes nothing. -/
theorem endTransaction_trigger_atomicity_witness :
    endTransaction false (some (.splitTrigger 1 [109] 2))
        ⟨.pending, [⟨1, [97], [122]⟩]⟩ =
      ({ status := .aborted, topo := [⟨1, [97], [122]⟩] }, none) ∧
    endTransaction true (some (.splitTrigger 1 [109] 2))
        ⟨.pending, [⟨1, [97], [122]⟩]⟩ =
      ({ status := .committed,
         topo := applyTrigger [⟨1, [97], [122]⟩]
           (some (.splitTrigger 1 [109] 2)) }, none) ∧
    endTransaction true (some (.splitTrigger 1 [109] 2))
        ⟨.aborted, [⟨1, [97], [122]⟩]⟩ =
      (⟨.aborted, [⟨1, [97], [122]⟩]⟩,
        some (.invalidArg "txn already aborted")) := by
  have h := endTransaction_trigger_atomicity
    ⟨.pending, [⟨1, [97], [122]⟩]⟩ (some (.splitTrigger 1 [109] 2)) rfl
  exact ⟨h.1, h.2.1,
    h.2.2.1 ⟨.aborted, [⟨1, [97], [122]⟩]⟩ rfl true
      (some (.splitTrigger 1 [109] 2))⟩

/-! ## Helper lemmas: batch execution -/

theorem execRequests_length (s : Store) (reqs : List RequestUnion) :
    (execRequests s reqs).1.length = reqs.length := by
  induction reqs generalizing s with
  | nil => rfl
  | cons q qs ih => simp [execRequests, ih]

theorem execRequests_append (s : Store) (qs1 qs2 : List RequestUnion) :
    execRequests s (qs1 ++ qs2) =
      ((execRequests s qs1).1 ++
        (execRequests (execRequests s qs1).2 qs2).1,
        (execRequests (execRequests s qs1).2 qs2).2) := by
  induction qs1 generalizing s with
  | nil => simp [execRequests]
  | cons q qs ih => simp [execRequests, ih]

theorem firstErr_eq_none_iff (rs : List ResponseUnion) :
    firstErr rs = none ↔ ∀ r ∈ rs, r.err = none := by
  induction rs with
  | nil => simp [firstErr]
  | cons r rest ih =>
    cases h : r.err with
    | some e => simp [firstErr, h]
    | none => simp [firstErr, h, ih]

theorem firstErr_eq_some (rs : List ResponseUnion) (e : KVError)
    (h : firstErr rs = some e) :
    ∃ pre r post, rs = pre ++ r :: post ∧ (∀ x ∈ pre, x.err = none) ∧
      r.err = some e := by
  induction rs with
  | nil => simp [firstErr] at h
  | cons r rest ih =>
    cases hr : r.err with
    | some e2 =>
      have he : e2 = e := by
        simpa [firstErr, hr] using h
      exact ⟨[], r, rest, rfl, by simp, he ▸ hr⟩
    | none =>
      have h2 : firstErr rest = some e := by
        simpa [firstErr, hr] using h
      obtain ⟨pre, rm, post, heq, hpre, herr⟩ := ih h2
      refine ⟨r :: pre, rm, post, by simp [heq], ?_, herr⟩
      intro x hx
      rcases List.mem_cons.mp hx with h1 | h1
      · exact h1 ▸ hr
      · exact hpre x h1

/-! ## Claim theorems: batch execution -/

/-- C4: a batch of n operations yields exactly n sub-responses in request
order; the batch header error is the first non-nil error among the
sub-responses in that order, nil when none fails; and a failing
sub-operation suppresses no other sub-response — each position's response
is exactly the execution of its request after the preceding prefix. -/
theorem batch_response_semantics (s : Store) (reqs : List RequestUnion) :
    ((executeBatch s reqs).1.responses.length = reqs.length) ∧
    ((executeBatch s reqs).1.headerErr = none ↔
      ∀ r ∈ (executeBatch s reqs).1.responses, r.err = none) ∧
    (∀ e, (executeBatch s reqs).1.headerErr = some e →
      ∃ pre r post, (executeBatch s reqs).1.responses = pre ++ r :: post ∧
        (∀ x ∈ pre, x.err = none) ∧ r.err = some e) ∧
    (∀ qs1 q qs2, reqs = qs1 ++ q :: qs2 →
      ∃ rs2, (executeBatch s reqs).1.responses =
        (execRequests s qs1).1 ++
          (executeOne (execRequests s qs1).2 q).1 :: rs2 ∧
        rs2.length = qs2.length) := by
  refine ⟨?_, ?_, ?_, ?_⟩
  · simpa [executeBatch] using execRequests_length s reqs
  · simpa [executeBatch] using firstErr_eq_none_iff (execRequests s reqs).1
  · intro e he
    exact firstErr_eq_some (execRequests s reqs).1 e
      (by simpa [executeBatch] using he)
  · intro qs1 q qs2 hsplit
    subst hsplit
    refine ⟨(execRequests
      (executeOne (execRequests s qs1).2 q).2 qs2).1, ?_, ?_⟩
    · simp [executeBatch, execRequests_append, execRequests]
    · exact execRequests_length _ qs2

/-- C4 witness: the literal scenario — a batch of three writes whose second
fails a conditional check returns three sub-responses and a batch-level
error equal to the second sub-response's mismatch error, with the third
response still present. -/
theorem batch_response_semantics_witness :
    (executeBatch []
      [.putReq [97] {}, .conditionalPutReq [98] {} (some { bytes := some [1] }),
        .putReq [99] {}]).1.responses.length = 3 ∧
    (∃ pre r post,
      (executeBatch []
        [.putReq [97] {}, .conditionalPutReq [98] {} (some { bytes := some [1] }),
          .putReq [99] {}]).1.responses = pre ++ r :: post ∧
      (∀ x ∈ pre, x.err = none) ∧
      r.err = some (.conditionFailed none)) ∧
    (∃ rs2,
      (executeBatch []
        [.putReq [97] {}, .conditionalPutReq [98] {} (some { bytes := some [1] }),
          .putReq [99] {}]).1.responses =
        (execRequests [] [.putReq [97] {}]).1 ++
          (executeOne (execRequests [] [.putReq [97] {}]).2
            (.conditionalPutReq [98] {} (some { bytes := some [1] }))).1 :: rs2 ∧
      rs2.length = 1) := by
  have h := batch_response_semantics []
    [.putReq [97] {}, .conditionalPutReq [98] {} (some { bytes := some [1] }),
      .putReq [99] {}]
  refine ⟨h.1, ?_, ?_⟩
  · exact h.2.2.1 (.conditionFailed none) (by decide)
  · exact h.2.2.2 [.putReq [97] {}]
      (.conditionalPutReq [98] {} (some { bytes := some [1] }))
      [.putReq [99] {}] rfl

/-! ## Claim theorems: admin merge -/

/-- C7: AdminMerge on the final range — the one whose span extends to the
maximum key of the key space — succeeds and changes no boundary and no
identity; on any other range with a right-adjacent neighbour, the merge
succeeds, the neighbour's key span is absorbed into the left range, and
the neighbour's identity ceases to exist. -/
theorem adminMerge_semantics (keyMax : Key) (topo : Topology) (leftID : Int)
    (r : RangeDesc)
    (hfind : topo.find? (fun x => x.raftID == leftID) = some r) :
    (r.endKey = keyMax → adminMerge keyMax topo leftID = (topo, none)) ∧
    (r.endKey ≠ keyMax →
      ∀ r2, topo.find? (fun x => x.startKey == r.endKey) = some r2 →
        r2.raftID ≠ leftID →
        (adminMerge keyMax topo leftID).2 = none ∧
        (∀ x ∈ (adminMerge keyMax topo leftID).1, x.raftID ≠ r2.raftID) ∧
        ({ raftID := leftID, startKey := r.startKey, endKey := r2.endKey } :
          RangeDesc) ∈ (adminMerge keyMax topo leftID).1) := by
  have hrid : r.raftID = leftID := by
    simpa using List.find?_some hfind
  have hrmem : r ∈ topo := List.mem_of_find?_eq_some hfind
  constructor
  · intro hmax
    simp [adminMerge, hfind, hmax]
  · intro hne r2 hfind2 hne2
    have hres : adminMerge keyMax topo leftID =
        ((topo.filter (fun x => !(x.raftID == r2.raftID))).map
          (fun x => if x.raftID = leftID then { x with endKey := r2.endKey }
            else x), none) := by
      simp [adminMerge, hfind, hne, hfind2]
    refine ⟨by rw [hres], ?_, ?_⟩
    · intro x hx
      rw [hres] at hx
      simp only [List.mem_map] at hx
      obtain ⟨y, hy, hxy⟩ := hx
      have hyne : y.raftID ≠ r2.raftID := by
        simpa using (List.mem_filter.mp hy).2
      by_cases hyl : y.raftID = leftID
      · rw [if_pos hyl] at hxy
        rw [← hxy]
        simpa [hyl] using hne2.symm
      · rw [if_neg hyl] at hxy
        rw [← hxy]
        exact hyne
    · rw [hres]
      refine List.mem_map.mpr ⟨r, List.mem_filter.mpr ⟨hrmem, ?_⟩, ?_⟩
      · simp [hrid, hne2.symm]
      · rw [if_pos hrid]
        obtain ⟨rid, rsk, rek⟩ := r
        simp only at hrid
        rw [hrid]

/-- C7 witness: in a two-range topology ending at the maximum key, merging
on the final range is a successful no-op, while merging on the first range
absorbs the second range's span and erases its identity. -/
theorem adminMerge_semantics_witness :
    adminMerge [9] [⟨1, [], [5]⟩, ⟨2, [5], [9]⟩] 2 =
      ([⟨1, [], [5]⟩, ⟨2, [5], [9]⟩], none) ∧
    (adminMerge [9] [⟨1, [], [5]⟩, ⟨2, [5], [9]⟩] 1).2 = none ∧
    (∀ x ∈ (adminMerge [9] [⟨1, [], [5]⟩, ⟨2, [5], [9]⟩] 1).1,
      x.raftID ≠ 2) ∧
    (⟨1, [], [9]⟩ : RangeDesc) ∈
      (adminMerge [9] [⟨1, [], [5]⟩, ⟨2, [5], [9]⟩] 1).1 := by
  have h2 := adminMerge_semantics [9] [⟨1, [], [5]⟩, ⟨2, [5], [9]⟩] 2
    ⟨2, [5], [9]⟩ (by decide)
  have h1 := adminMerge_semantics [9] [⟨1, [], [5]⟩, ⟨2, [5], [9]⟩] 1
    ⟨1, [], [5]⟩ (by decide)
  have hm := h1.2 (by decide) ⟨2, [5], [9]⟩ (by decide) (by decide)
  exact ⟨h2.1 rfl, hm.1, hm.2.1, hm.2.2⟩

end Cockroach
